import Mathlib

/-!
Verification of `featuretools/mkfeat/columnspec.py` and
`featuretools/selection/selection.py`.

A Python column descriptor is a dict with optional entries.  The fields
`name` and `type` may be absent (`'name' not in colinfo`), which we model as
`Option String`; accessing an absent field raises `KeyError`, which we model
by computing in the `Option` monad (`none` = the call raised).  The role
flags `key`, `label`, `train`, `bypass` are only ever read through the
pattern `'k' in colinfo and colinfo['k']`, i.e. absent and falsy coincide,
so a `Bool` field models them exactly.
-/

set_option maxHeartbeats 1000000

/-- One column descriptor record (a Python dict). -/
structure Colinfo where
  name : Option String
  type : Option String
  key : Bool
  label : Bool
  train : Bool
  bypass : Bool
deriving DecidableEq, Repr

/-- Modelled from the spec: the `Error` code enumeration from
`featuretools/mkfeat/error.py`, a file that is not part of the sources;
the spec names exactly these codes for `ColumnSpec.validate`, and all that
matters for the claims is that they are distinct values. -/
inductive Error where
  | OK
  | ERR_COLUMN_HAS_NO_NAME_OR_TYPE
  | ERR_COLUMN_MULTI_KEY
  | ERR_COLUMN_KEY_AND_LABEL
  | ERR_COLUMN_MULTI_LABEL
deriving DecidableEq, Repr

/-- `ColumnSpec` instance state: the descriptor list and the memoized
`_auto_keyname` field (initialized to `None`). -/
structure ColumnSpec where
  columns : List Colinfo
  auto_keyname : Option String
deriving DecidableEq, Repr

/-- `ColumnSpec.__init__`. -/
def mkColumnSpec (columns : List Colinfo) : ColumnSpec :=
  ⟨columns, none⟩

/-- Python truthiness of an optional string (`None` and `""` are falsy). -/
def truthyOptStr : Option String → Bool
  | none => false
  | some s => !(s == "")

namespace ColumnSpec

/-- The scanning loop of `ColumnSpec.validate`, carrying the `has_key` and
`has_label` accumulators. -/
def validateAux (has_key has_label : Bool) : List Colinfo → Error
  | [] => Error.OK
  | c :: rest =>
    if c.name.isNone || c.type.isNone then Error.ERR_COLUMN_HAS_NO_NAME_OR_TYPE
    else if c.key && has_key then Error.ERR_COLUMN_MULTI_KEY
    else if c.key && c.label then Error.ERR_COLUMN_KEY_AND_LABEL
    else if c.label && has_label then Error.ERR_COLUMN_MULTI_LABEL
    else validateAux (has_key || c.key) (has_label || c.label) rest

/-- `ColumnSpec.validate`. -/
def validate (columns : List Colinfo) : Error :=
  validateAux false false columns

/-- `ColumnSpec.get_colnames`: the `name` of every descriptor, in order;
`none` models the `KeyError` raised when some descriptor lacks `name`. -/
def get_colnames : List Colinfo → Option (List String)
  | [] => some []
  | c :: rest => do
    let n ← c.name
    let r ← get_colnames rest
    some (n :: r)

/-- `ColumnSpec._is_numeric_type`. -/
def is_numeric_type (typestr : String) : Bool :=
  typestr == "number" || typestr == "bool"

/-- The per-descriptor filter chain of `get_usecols`, excluding the final
`name` access: `some false` = skipped by a `continue`, `some true` = kept,
`none` = `KeyError` on the `type` access. -/
def usecolsStep (numeric_only label_only exclude_skip : Bool) (c : Colinfo) :
    Option Bool :=
  let step2 : Option Bool :=
    if label_only && !c.label then some false
    else if exclude_skip && (c.label || c.train || c.bypass) then some false
    else some true
  if numeric_only then
    match c.type with
    | none => none
    | some t => if !is_numeric_type t then some false else step2
  else step2

/-- `ColumnSpec.get_usecols`. -/
def get_usecols (columns : List Colinfo)
    (numeric_only label_only exclude_skip : Bool) : Option (List String) :=
  match columns with
  | [] => some []
  | c :: rest => do
    let keep ← usecolsStep numeric_only label_only exclude_skip c
    if keep then do
      let nm ← c.name
      let r ← get_usecols rest numeric_only label_only exclude_skip
      some (nm :: r)
    else get_usecols rest numeric_only label_only exclude_skip

/-- A strict pandas storage dtype, the values of `_mkfeat_typestr_to_dtype`
(only `bool` is registered). -/
inductive PDtype where
  | boolType
deriving DecidableEq, Repr

/-- A value-parsing converter, the values of `_mkfeat_typestr_to_converter`
(`pd.to_numeric` and `pd.to_datetime`, which are opaque external functions). -/
inductive Converter where
  | to_numeric
  | to_datetime
deriving DecidableEq, Repr

/-- Python `dict` insertion: an existing key keeps its position and gets the
new value, a new key is appended. -/
def dictInsert {β : Type} (acc : List (String × β)) (k : String) (v : β) :
    List (String × β) :=
  if k ∈ acc.map Prod.fst then
    acc.map (fun p => if p.1 = k then (k, v) else p)
  else acc ++ [(k, v)]

/-- `ColumnSpec._get_dtype_from_strtype`. -/
def get_dtype_from_strtype (typestr : String) : Option PDtype :=
  if typestr == "bool" then some PDtype.boolType else none

/-- `ColumnSpec._get_converter_from_strtype`. -/
def get_converter_from_strtype (typestr : String) : Option Converter :=
  if typestr == "number" then some Converter.to_numeric
  else if typestr == "date" then some Converter.to_datetime
  else none

/-- The loop of `ColumnSpec.get_dtypes`, building the `dtypes` dict; the
outer `Option` models a `KeyError` on a `name`/`type` access. -/
def get_dtypesAux (acc : List (String × PDtype)) :
    List Colinfo → Option (List (String × PDtype))
  | [] => some acc
  | c :: rest => do
    let t ← c.type
    match get_dtype_from_strtype t with
    | none => get_dtypesAux acc rest
    | some d => do
       let n ← c.name
       get_dtypesAux (dictInsert acc n d) rest

/-- `ColumnSpec.get_dtypes`. -/
def get_dtypes (columns : List Colinfo) : Option (List (String × PDtype)) :=
  get_dtypesAux [] columns

/-- The loop of `ColumnSpec.get_converters`. -/
def get_convertersAux (acc : List (String × Converter)) :
    List Colinfo → Option (List (String × Converter))
  | [] => some acc
  | c :: rest => do
    let t ← c.type
    match get_converter_from_strtype t with
    | none => get_convertersAux acc rest
    | some cv => do
       let n ← c.name
       get_convertersAux (dictInsert acc n cv) rest

/-- `ColumnSpec.get_converters`. -/
def get_converters (columns : List Colinfo) : Option (List (String × Converter)) :=
  get_convertersAux [] columns

/-- The `for i in range(1, 100000)` loop of `_setup_auto_keyname`: try
`"id_" ++ i`, break on the first candidate not among `colnames`; when the
range is exhausted the last candidate is left in `keyname` unchecked.
Called with `i = 1`, `fuel = 99998` this visits exactly `i = 1 .. 99999`. -/
def autoKeyFrom (colnames : List String) (i : Nat) : Nat → String
  | 0 => "id_" ++ toString i
  | fuel + 1 =>
    let keyname := "id_" ++ toString i
    if keyname ∈ colnames then autoKeyFrom colnames (i + 1) fuel else keyname

/-- `ColumnSpec._setup_auto_keyname`. -/
def setup_auto_keyname (s : ColumnSpec) : Option ColumnSpec :=
  if truthyOptStr s.auto_keyname then some s
  else do
    let colnames ← get_colnames s.columns
    let keyname :=
      if "id" ∉ colnames then "id" else autoKeyFrom colnames 1 99998
    some { s with auto_keyname := some keyname }

/-- `ColumnSpec.get_key_colname`: returns the produced key name together
with the possibly-updated instance state. -/
def get_key_colname (s : ColumnSpec) : Option (String × ColumnSpec) :=
  match s.columns.find? (·.key) with
  | some c => do
    let n ← c.name
    some (n, s)
  | none => do
    let s2 ← setup_auto_keyname s
    let k ← s2.auto_keyname
    some (k, s2)

/-- `ColumnSpec.is_auto_keyname`. -/
def is_auto_keyname (s : ColumnSpec) : Bool :=
  truthyOptStr s.auto_keyname

/-- `ColumnSpec.get_label_colname`: the inner `Option` is the Python
`None`-or-name result, the outer one models a `KeyError`. -/
def get_label_colname (columns : List Colinfo) : Option (Option String) :=
  match columns.find? (·.label) with
  | some c => do
    let n ← c.name
    some (some n)
  | none => some none

/-- `ColumnSpec.get_train_colname`. -/
def get_train_colname (columns : List Colinfo) : Option (Option String) :=
  match columns.find? (·.train) with
  | some c => do
    let n ← c.name
    some (some n)
  | none => some none

/-- `ColumnSpec.get_bypass_colnames`. -/
def get_bypass_colnames : List Colinfo → Option (List String)
  | [] => some []
  | c :: rest =>
    if c.bypass then do
      let n ← c.name
      let r ← get_bypass_colnames rest
      some (n :: r)
    else get_bypass_colnames rest

/-- `ColumnSpec.get_is_numerics`. -/
def get_is_numerics : List Colinfo → Option (List Bool)
  | [] => some []
  | c :: rest =>
    if c.label || c.bypass then do
      let r ← get_is_numerics rest
      some (false :: r)
    else do
      let t ← c.type
      let r ← get_is_numerics rest
      some (is_numeric_type t :: r)

end ColumnSpec

/- Spec-side reformulations for claims C1 and C2. -/

/-- The validity invariants exactly as claim C1 words them: every descriptor
has both `name` and `type`, at most one has `key=true`, at most one has
`label=true`, and none has both. -/
def validSpec (cols : List Colinfo) : Prop :=
  (∀ c ∈ cols, c.name.isSome ∧ c.type.isSome) ∧
  cols.countP (·.key) ≤ 1 ∧
  cols.countP (·.label) ≤ 1 ∧
  ∀ c ∈ cols, ¬(c.key = true ∧ c.label = true)

instance (cols : List Colinfo) : Decidable (validSpec cols) := by
  unfold validSpec; infer_instance

/-- The per-descriptor check of claim C1, in the claim's order: missing
name/type, second key, key-and-label on the same descriptor, second label. -/
def descriptorCheck (has_key has_label : Bool) (c : Colinfo) : Option Error :=
  if ¬(c.name.isSome ∧ c.type.isSome) then some Error.ERR_COLUMN_HAS_NO_NAME_OR_TYPE
  else if c.key = true ∧ has_key = true then some Error.ERR_COLUMN_MULTI_KEY
  else if c.key = true ∧ c.label = true then some Error.ERR_COLUMN_KEY_AND_LABEL
  else if c.label = true ∧ has_label = true then some Error.ERR_COLUMN_MULTI_LABEL
  else none

/-- Claim C1's description of the scan: return the error code of the first
violating descriptor, tracking whether a key and a label were already seen. -/
def validateScan (has_key has_label : Bool) : List Colinfo → Error
  | [] => Error.OK
  | c :: rest =>
    match descriptorCheck has_key has_label c with
    | some e => e
    | none => validateScan (has_key || c.key) (has_label || c.label) rest

/-- Claim C2's description of one surviving descriptor: it passes every
active filter. -/
def usecolsSpecKeep (numeric_only label_only exclude_skip : Bool)
    (c : Colinfo) : Bool :=
  (!numeric_only || (match c.type with
                     | some t => t == "number" || t == "bool"
                     | none => false)) &&
  (!label_only || c.label) &&
  (!exclude_skip || (!c.label && !c.train && !c.bypass))

/-- Claim C2's description of the result: the names of the surviving
descriptors, in input order. -/
def usecolsSpecList (numeric_only label_only exclude_skip : Bool)
    (cols : List Colinfo) : List String :=
  (cols.filter (usecolsSpecKeep numeric_only label_only exclude_skip)).filterMap
    Colinfo.name

/-- Claim C3's candidate sequence for the synthetic key name:
`"id", "id_1", ..., "id_99999"`. -/
def autoCandidates : List String :=
  "id" :: (List.range' 1 99999).map (fun i => "id_" ++ toString i)

/-- The names of a descriptor list, read totally (equals `get_colnames`
whenever every descriptor has a `name`). -/
def totalNames (cols : List Colinfo) : List String :=
  cols.filterMap Colinfo.name

/-- Claim C3's description of `get_key_colname`'s value: the name of the
descriptor with `key=true` if one exists, else the first candidate that is
not an existing column name. -/
def expectedKeyName (cols : List Colinfo) : Option String :=
  match cols.find? (·.key) with
  | some c => c.name
  | none => autoCandidates.find? (fun k => decide (k ∉ totalNames cols))

/-!
## The selection module

A feature matrix is a list of named, dtyped columns; a cell is `Option α`
with `none` modelling a missing value (`NaN`).  Pandas aggregates are
modelled over `ℚ`: `nunique` as the length of `dedup` (pandas counts all
`NaN` cells as one value under `dropna=False`), `isnull().mean()` as the
missing count divided by the length.  The Pearson correlation primitive is
an external black-box service per the spec, so
`find_highly_correlated_features` takes it as a function parameter.
-/

/-- The pandas storage dtypes a feature-matrix column can carry. -/
inductive DType where
  | int8 | int16 | int32 | int64
  | uint8 | uint16 | uint32 | uint64
  | float16 | float32 | float64
  | boolDt | objectDt | datetime64
deriving DecidableEq, Repr

/-- Whether a dtype is numeric or boolean in the pandas sense
(`select_dtypes(include=['number', 'bool'])`): every signed or unsigned
integer or float dtype, and `bool`. -/
def DType.isNumericOrBool : DType → Bool
  | .int8 | .int16 | .int32 | .int64 => true
  | .uint8 | .uint16 | .uint32 | .uint64 => true
  | .float16 | .float32 | .float64 => true
  | .boolDt => true
  | .objectDt | .datetime64 => false

/-- One feature-matrix column. -/
structure Column (α : Type) where
  name : String
  dtype : DType
  values : List (Option α)
deriving DecidableEq, Repr

/-- A feature matrix: an ordered list of named columns. -/
abbrev DataFrame (α : Type) := List (Column α)

/-- The column labels of a frame, in order. -/
def colNames {α : Type} (df : DataFrame α) : List String :=
  df.map Column.name

/-- The Python exceptions the selection functions can raise. -/
inductive PyError where
  | valueError (msg : String)
  | keyError (name : String)
deriving DecidableEq, Repr

deriving instance DecidableEq for Except

/-- `Series.nunique(dropna=...)`: the number of distinct values of a column,
with all missing cells collapsing to one value when `dropna` is false and
discarded when it is true. -/
def nunique {α : Type} [DecidableEq α] (vals : List (Option α)) (dropna : Bool) : Nat :=
  if dropna then (vals.filterMap id).dedup.length else vals.dedup.length

/-- `Series.dropna().shape[0]`: the number of non-missing cells. -/
def countNonMissing {α : Type} (vals : List (Option α)) : Nat :=
  (vals.filterMap id).length

/-- `Series.isnull().mean()`: the fraction of missing cells (`0` for an
empty column, where pandas produces `NaN`; both compare false against any
threshold in `[0, 1]`). -/
def pctNull {α : Type} (vals : List (Option α)) : ℚ :=
  (vals.countP Option.isNone : ℚ) / (vals.length : ℚ)

/-- `feature_matrix[keep]`: select the named columns, in `keep` order. -/
def selectByNames {α : Type} (df : DataFrame α) (keep : List String) : DataFrame α :=
  keep.filterMap (fun n => df.find? (fun c => c.name == n))

/-- `remove_low_information_features`: keep the columns with more than one
distinct value (missing included) and at least one non-missing cell; the
optional companion feature list (modelled by the features' names) is
filtered to the surviving columns. -/
def remove_low_information_features {α : Type} [DecidableEq α]
    (feature_matrix : DataFrame α) (features : Option (List String)) :
    DataFrame α × Option (List String) :=
  let keep := (feature_matrix.filter (fun c =>
      decide (1 < nunique c.values false) &&
      decide (0 < countNonMissing c.values))).map Column.name
  let fm := selectByNames feature_matrix keep
  match features with
  | none => (fm, none)
  | some fs => (fm, some (fs.filter (fun f => decide (f ∈ colNames fm))))

/-- `find_highly_null_features`. -/
def find_highly_null_features {α : Type} (feature_matrix : DataFrame α)
    (pct_null_threshold : ℚ) : Except PyError (List String) :=
  if pct_null_threshold < 0 ∨ pct_null_threshold > 1 then
    .error (.valueError "pct_null_threshold must be a float between 0 and 1, inclusive.")
  else
    let percent_null_by_col := feature_matrix.map (fun c => (c.name, pctNull c.values))
    .ok ((percent_null_by_col.filter (fun p => decide (p.2 > pct_null_threshold))).map
      Prod.fst)

/-- `find_single_value_features`. -/
def find_single_value_features {α : Type} [DecidableEq α]
    (feature_matrix : DataFrame α) (count_nan_as_value : Bool) : List String :=
  let unique_counts_by_col := feature_matrix.map
    (fun c => (c.name, nunique c.values (!count_nan_as_value)))
  (unique_counts_by_col.filter (fun p => decide (p.2 ≤ 1))).map Prod.fst

/-- The source's `numeric_dtypes + boolean` include-list for
`select_dtypes`. -/
def numeric_and_boolean_dtypes : List DType :=
  [DType.int16, DType.int32, DType.int64,
   DType.float16, DType.float32, DType.float64] ++ [DType.boolDt]

/-- Python's `sorted((a, b))` on two strings. -/
def sortPair (a b : String) : String × String :=
  if a ≤ b then (a, b) else (b, a)

/-- The inner `for f_name2, col2 in fm_to_check.iteritems()` loop of
`find_highly_correlated_features`, threading the pair dict (a Python dict,
modelled as an insertion-ordered association list). -/
def corrInner {α : Type} (corr : List (Option α) → List (Option α) → ℚ)
    (c1 : Column α) :
    List (Column α) → List ((String × String) × ℚ) → List ((String × String) × ℚ)
  | [], acc => acc
  | c2 :: rest, acc =>
    let pair := sortPair c1.name c2.name
    if c1.name = c2.name ∨ pair ∈ acc.map Prod.fst then corrInner corr c1 rest acc
    else corrInner corr c1 rest (acc ++ [(pair, |corr c1.values c2.values|)])

/-- The outer `for f_name1, col1 in fm_to_check.iteritems()` loop. -/
def corrOuter {α : Type} (corr : List (Option α) → List (Option α) → ℚ)
    (all : List (Column α)) :
    List (Column α) → List ((String × String) × ℚ) → List ((String × String) × ℚ)
  | [], acc => acc
  | c1 :: rest, acc => corrOuter corr all rest (corrInner corr c1 all acc)

/-- `feature_matrix[list(features_to_check)]`, raising `KeyError` on a name
absent from the matrix. -/
def selectColsE {α : Type} (df : DataFrame α) :
    List String → Except PyError (DataFrame α)
  | [] => .ok []
  | n :: rest =>
    match df.find? (fun c => c.name == n) with
    | none => .error (.keyError n)
    | some c => do
      let r ← selectColsE df rest
      .ok (c :: r)

/-- `find_highly_correlated_features`, parameterized by the black-box
correlation primitive `corr` (`Series.corr`). -/
def find_highly_correlated_features {α : Type}
    (corr : List (Option α) → List (Option α) → ℚ)
    (feature_matrix : DataFrame α) (pct_corr_threshold : ℚ)
    (features_to_check features_to_exclude : Option (List String)) :
    Except PyError (List (String × String)) :=
  if pct_corr_threshold < 0 ∨ pct_corr_threshold > 1 then
    .error (.valueError "pct_corr_threshold must be a float between 0 and 1, inclusive.")
  else
    let ftc := match features_to_check with
      | none => colNames feature_matrix
      | some l => l
    let ftc2 := match features_to_exclude with
      | none => ftc
      | some ex => ftc.filter (fun n => decide (n ∉ ex))
    do
      let sub ← selectColsE feature_matrix ftc2
      let fm_to_check := sub.filter (fun c => decide (c.dtype ∈ numeric_and_boolean_dtypes))
      let highly_correlated_by_pairs := corrOuter corr fm_to_check fm_to_check []
      .ok ((highly_correlated_by_pairs.filter
              (fun p => decide (p.2 ≥ pct_corr_threshold))).map Prod.fst)

/- Spec-side reformulations for claims C5 to C8. -/

/-- Claim C5's count of distinct values, "counting missing as a distinct
value": the distinct non-missing values plus one when a missing cell
exists. -/
def distinctWithMissing {α : Type} [DecidableEq α] (vals : List (Option α)) : Nat :=
  (vals.filterMap id).dedup.length + (if none ∈ vals then 1 else 0)

/-- Claim C6's fraction of missing values of a column. -/
def missingFraction {α : Type} (vals : List (Option α)) : ℚ :=
  ((vals.filter Option.isNone).length : ℚ) / (vals.length : ℚ)

/-- Claim C7's distinct-value count: missing values are excluded when
`count_nan_as_value` is false and count as one distinct value when it is
true. -/
def distinctSpec {α : Type} [DecidableEq α] (count_nan_as_value : Bool)
    (vals : List (Option α)) : Nat :=
  (vals.filterMap id).dedup.length +
    (if count_nan_as_value = true ∧ none ∈ vals then 1 else 0)

/-- The check set of claim C8: `features_to_check` (default: all column
labels) minus `features_to_exclude`. -/
def checkedNames {α : Type} (df : DataFrame α)
    (features_to_check features_to_exclude : Option (List String)) : List String :=
  let ftc := match features_to_check with
    | none => colNames df
    | some l => l
  match features_to_exclude with
  | none => ftc
  | some ex => ftc.filter (fun n => decide (n ∉ ex))

/-- Claim C8's remaining columns: those of the check set whose storage
dtype passes the `select_dtypes` include-list. -/
def keptCols {α : Type} (df : DataFrame α)
    (features_to_check features_to_exclude : Option (List String)) : List (Column α) :=
  df.filter (fun c =>
    decide (c.name ∈ checkedNames df features_to_check features_to_exclude) &&
    decide (c.dtype ∈ numeric_and_boolean_dtypes))

/-- The straight-line enumeration of the unordered column pairs: each
earlier column paired once with each later column, with the absolute
correlation attached. -/
def canonicalPairs {α : Type} (corr : List (Option α) → List (Option α) → ℚ) :
    List (Column α) → List ((String × String) × ℚ)
  | [] => []
  | c :: rest =>
    rest.map (fun c2 => (sortPair c.name c2.name, |corr c.values c2.values|)) ++
      canonicalPairs corr rest

/-!
## Claim C1
-/

theorem validateAux_eq_scan (cols : List Colinfo) :
    ∀ hk hl, ColumnSpec.validateAux hk hl cols = validateScan hk hl cols := by
  induction cols with
  | nil => intro hk hl; rfl
  | cons c rest ih =>
    intro hk hl
    rcases c with ⟨nm, ty, ck, cl, ct, cb⟩
    cases nm <;> cases ty <;> cases ck <;> cases cl <;> cases hk <;> cases hl <;>
      simp [ColumnSpec.validateAux, validateScan, descriptorCheck, ih]

theorem validateAux_eq_ok_iff (cols : List Colinfo) : ∀ hk hl : Bool,
    ColumnSpec.validateAux hk hl cols = Error.OK ↔
      ((∀ c ∈ cols, c.name.isSome ∧ c.type.isSome) ∧
       cols.countP (·.key) + (if hk then 1 else 0) ≤ 1 ∧
       cols.countP (·.label) + (if hl then 1 else 0) ≤ 1 ∧
       ∀ c ∈ cols, ¬(c.key = true ∧ c.label = true)) := by
  induction cols with
  | nil =>
    intro hk hl
    cases hk <;> cases hl <;> simp [ColumnSpec.validateAux]
  | cons c rest ih =>
    intro hk hl
    rcases c with ⟨nm, ty, ck, cl, ct, cb⟩
    cases nm <;> cases ty <;> cases ck <;> cases cl <;> cases hk <;> cases hl <;>
      simp [ColumnSpec.validateAux, List.countP_cons, ih]

/-- C1: `validate` returns `OK` exactly on descriptor lists where every
descriptor has both `name` and `type`, at most one descriptor is a key, at
most one is a label and none is both; and it performs the first-violation
scan in the claim's per-descriptor check order. -/
theorem C1_validate_ok_iff_and_first_violation (cols : List Colinfo) :
    (ColumnSpec.validate cols = Error.OK ↔ validSpec cols) ∧
    ColumnSpec.validate cols = validateScan false false cols := by
  constructor
  · rw [ColumnSpec.validate, validateAux_eq_ok_iff]
    simp [validSpec]
  · exact validateAux_eq_scan cols false false

/-!
## Claim C2
-/

theorem usecolsStep_eq_spec (numeric_only label_only exclude_skip : Bool)
    (c : Colinfo) (t : String) (ht : c.type = some t) :
    ColumnSpec.usecolsStep numeric_only label_only exclude_skip c =
      some (usecolsSpecKeep numeric_only label_only exclude_skip c) := by
  rcases c with ⟨nm, ty, ck, cl, ct, cb⟩
  simp only at ht
  subst ht
  cases hnum : (t == "number" || t == "bool") <;>
    cases numeric_only <;> cases label_only <;> cases exclude_skip <;>
    cases ck <;> cases cl <;> cases ct <;> cases cb <;>
    simp [ColumnSpec.usecolsStep, usecolsSpecKeep, ColumnSpec.is_numeric_type, hnum]

theorem get_usecols_eq_spec (cols : List Colinfo)
    (hwf : ∀ c ∈ cols, c.name.isSome ∧ c.type.isSome) :
    ∀ numeric_only label_only exclude_skip : Bool,
      ColumnSpec.get_usecols cols numeric_only label_only exclude_skip =
        some (usecolsSpecList numeric_only label_only exclude_skip cols) := by
  induction cols with
  | nil => intro n l e; rfl
  | cons c rest ih =>
    intro n l e
    obtain ⟨nm, hnm⟩ := Option.isSome_iff_exists.mp (hwf c (by simp)).1
    obtain ⟨t, ht⟩ := Option.isSome_iff_exists.mp (hwf c (by simp)).2
    have ihr := ih (fun x hx => hwf x (List.mem_cons_of_mem _ hx))
    rw [ColumnSpec.get_usecols, usecolsStep_eq_spec n l e c t ht]
    cases hk : usecolsSpecKeep n l e c
    · simp [usecolsSpecList, hk, ihr n l e, List.filter_cons]
    · simp [usecolsSpecList, hk, ihr n l e, hnm, List.filter_cons]

/-- C2: on a well-formed descriptor list, `get_usecols` returns exactly the
names, in input order, of the descriptors that pass every active filter
(numeric-capable type under `numeric_only`, `label=true` under `label_only`,
none of `label`/`train`/`bypass` under `exclude_skip`). -/
theorem C2_get_usecols_filters (cols : List Colinfo)
    (hwf : ∀ c ∈ cols, c.name.isSome ∧ c.type.isSome) :
    ∀ numeric_only label_only exclude_skip : Bool,
      ColumnSpec.get_usecols cols numeric_only label_only exclude_skip =
        some (usecolsSpecList numeric_only label_only exclude_skip cols) :=
  get_usecols_eq_spec cols hwf

/-- C2 witness: at the spec's example (`a:number`, `b:string`, `c:bool`)
with `numeric_only=true` the returned names are `["a", "c"]`. -/
theorem C2_get_usecols_filters_witness :
    (∀ c ∈ [Colinfo.mk (some "a") (some "number") false false false false,
            Colinfo.mk (some "b") (some "string") false false false false,
            Colinfo.mk (some "c") (some "bool") false false false false],
        c.name.isSome ∧ c.type.isSome) ∧
    ColumnSpec.get_usecols
        [Colinfo.mk (some "a") (some "number") false false false false,
         Colinfo.mk (some "b") (some "string") false false false false,
         Colinfo.mk (some "c") (some "bool") false false false false]
        true false false =
      some (usecolsSpecList true false false
        [Colinfo.mk (some "a") (some "number") false false false false,
         Colinfo.mk (some "b") (some "string") false false false false,
         Colinfo.mk (some "c") (some "bool") false false false false]) ∧
    usecolsSpecList true false false
        [Colinfo.mk (some "a") (some "number") false false false false,
         Colinfo.mk (some "b") (some "string") false false false false,
         Colinfo.mk (some "c") (some "bool") false false false false] = ["a", "c"] :=
  ⟨by decide,
   C2_get_usecols_filters _ (by decide) true false false,
   by decide⟩

/-!
## Claim C3
-/

theorem get_colnames_eq_totalNames (cols : List Colinfo)
    (hwf : ∀ c ∈ cols, c.name.isSome) :
    ColumnSpec.get_colnames cols = some (totalNames cols) := by
  induction cols with
  | nil => rfl
  | cons c rest ih =>
    obtain ⟨nm, hnm⟩ := Option.isSome_iff_exists.mp (hwf c (by simp))
    have ihr := ih (fun x hx => hwf x (List.mem_cons_of_mem _ hx))
    simp [ColumnSpec.get_colnames, totalNames, List.filterMap_cons, hnm, ihr]

theorem idAppend_ne_empty (s : String) : ¬("id_" ++ s = "") := by
  intro h
  have h2 := congrArg String.length h
  rw [String.length_append] at h2
  have h3 : "id_".length = 3 := rfl
  have h4 : "".length = 0 := rfl
  omega

theorem autoKeyFrom_ne_empty (ns : List String) (fuel : Nat) :
    ∀ i : Nat, ¬(ColumnSpec.autoKeyFrom ns i fuel = "") := by
  induction fuel with
  | zero => intro i; exact idAppend_ne_empty _
  | succ f ih =>
    intro i
    rw [ColumnSpec.autoKeyFrom]
    by_cases hmem : ("id_" ++ toString i) ∈ ns
    · simpa [hmem] using ih (i + 1)
    · simpa [hmem] using idAppend_ne_empty (toString i)

theorem autoKeyFrom_eq_find (ns : List String) (fuel : Nat) :
    ∀ i : Nat,
      (((List.range' i (fuel + 1)).map (fun j => "id_" ++ toString j)).find?
          (fun k => decide (k ∉ ns))).isSome →
      ((List.range' i (fuel + 1)).map (fun j => "id_" ++ toString j)).find?
          (fun k => decide (k ∉ ns)) = some (ColumnSpec.autoKeyFrom ns i fuel) := by
  induction fuel with
  | zero =>
    intro i h
    by_cases hmem : ("id_" ++ toString i) ∈ ns
    · simp [List.range', hmem] at h
    · simp [List.range', hmem, ColumnSpec.autoKeyFrom]
  | succ f ih =>
    intro i h
    have hr : List.range' i (f + 1 + 1) = i :: List.range' (i + 1) (f + 1) := rfl
    rw [hr] at h ⊢
    by_cases hmem : ("id_" ++ toString i) ∈ ns
    · rw [List.map_cons, List.find?_cons_of_neg _ (by simp [hmem])] at h ⊢
      rw [ih (i + 1) h, ColumnSpec.autoKeyFrom]
      simp [hmem]
    · rw [List.map_cons, List.find?_cons_of_pos _ (by simp [hmem])]
      rw [ColumnSpec.autoKeyFrom]
      simp [hmem]

/-- C3: on a well-formed descriptor list with at least one free synthetic
candidate, `get_key_colname` on a fresh instance returns the declared key
descriptor's name if one exists and otherwise the first unused candidate
among `"id", "id_1", ..., "id_99999"`, and a second call returns the same
value on the same state. -/
theorem C3_get_key_colname_spec (cols : List Colinfo)
    (hwf : ∀ c ∈ cols, c.name.isSome)
    (hcand : ∃ k ∈ autoCandidates, k ∉ totalNames cols) :
    ∃ k s2, ColumnSpec.get_key_colname (mkColumnSpec cols) = some (k, s2) ∧
      some k = expectedKeyName cols ∧
      ColumnSpec.get_key_colname s2 = some (k, s2) := by
  cases hfind : cols.find? (·.key) with
  | some c =>
    have hc : c ∈ cols := List.mem_of_find?_eq_some hfind
    obtain ⟨nm, hnm⟩ := Option.isSome_iff_exists.mp (hwf c hc)
    exact ⟨nm, mkColumnSpec cols,
      by simp [ColumnSpec.get_key_colname, mkColumnSpec, hfind, hnm],
      by simp [expectedKeyName, hfind, hnm],
      by simp [ColumnSpec.get_key_colname, mkColumnSpec, hfind, hnm]⟩
  | none =>
    have hcol := get_colnames_eq_totalNames cols hwf
    have hsome : (autoCandidates.find? (fun k => decide (k ∉ totalNames cols))).isSome := by
      rw [List.find?_isSome]
      obtain ⟨k, hk1, hk2⟩ := hcand
      exact ⟨k, hk1, by simpa using hk2⟩
    set keyname := if "id" ∉ totalNames cols then "id"
      else ColumnSpec.autoKeyFrom (totalNames cols) 1 99998 with hkey
    have hfindCand : autoCandidates.find? (fun k => decide (k ∉ totalNames cols)) =
        some keyname := by
      rw [autoCandidates]
      by_cases hid : "id" ∈ totalNames cols
      · rw [List.find?_cons_of_neg _ (by simp [hid])]
        rw [autoCandidates, List.find?_cons_of_neg _ (by simp [hid])] at hsome
        have h99 : (99999 : Nat) = 99998 + 1 := rfl
        rw [h99] at hsome ⊢
        rw [autoKeyFrom_eq_find _ _ _ hsome, hkey]
        simp [hid]
      · rw [List.find?_cons_of_pos _ (by simp [hid]), hkey]
        simp [hid]
    have hne : ¬(keyname = "") := by
      rw [hkey]
      by_cases hid : "id" ∈ totalNames cols
      · simpa [hid] using autoKeyFrom_ne_empty (totalNames cols) 99998 1
      · simp [hid]
    refine ⟨keyname, ⟨cols, some keyname⟩, ?_, ?_, ?_⟩
    · simp [ColumnSpec.get_key_colname, mkColumnSpec, hfind,
        ColumnSpec.setup_auto_keyname, truthyOptStr, hcol, hkey]
    · rw [expectedKeyName, hfind, hfindCand]
    · simp [ColumnSpec.get_key_colname, hfind,
        ColumnSpec.setup_auto_keyname, truthyOptStr, hne]

/-- C3 witness: on a single keyless column named `"a"`, both hypotheses
hold and the synthetic key name is `"id"`, stable under a second call. -/
theorem C3_get_key_colname_spec_witness :
    ((∀ c ∈ [Colinfo.mk (some "a") (some "number") false false false false],
        c.name.isSome) ∧
     ∃ k ∈ autoCandidates,
        k ∉ totalNames [Colinfo.mk (some "a") (some "number") false false false false]) ∧
    ∃ k s2,
      ColumnSpec.get_key_colname
          (mkColumnSpec [Colinfo.mk (some "a") (some "number") false false false false]) =
        some (k, s2) ∧
      some k = expectedKeyName [Colinfo.mk (some "a") (some "number") false false false false] ∧
      ColumnSpec.get_key_colname s2 = some (k, s2) :=
  ⟨⟨by decide, ⟨"id", List.Mem.head _, by decide⟩⟩,
   C3_get_key_colname_spec _ (by decide) ⟨"id", List.Mem.head _, by decide⟩⟩

/-!
## Claim C4

The claim is false on the code: `is_auto_keyname` tests the memoized
`_auto_keyname` field, which `__init__` sets to `None`; on a fresh instance
it returns false even when no descriptor declares `key=true`.  It becomes
true only after `get_key_colname` has generated the synthetic name.
-/

theorem get_key_colname_of_key (cols : List Colinfo) (c : Colinfo) (nm : String)
    (hfind : List.find? (·.key) cols = some c) (hnm : c.name = some nm) :
    ColumnSpec.get_key_colname (mkColumnSpec cols) = some (nm, mkColumnSpec cols) := by
  rw [ColumnSpec.get_key_colname,
    show (mkColumnSpec cols).columns = cols from rfl, hfind]
  simp [hnm]

theorem get_key_colname_of_auto (cols : List Colinfo) (ns : List String)
    (hfind : List.find? (·.key) cols = none)
    (hg : ColumnSpec.get_colnames cols = some ns) :
    ColumnSpec.get_key_colname (mkColumnSpec cols) =
      some (if "id" ∉ ns then "id" else ColumnSpec.autoKeyFrom ns 1 99998,
        ⟨cols, some (if "id" ∉ ns then "id"
                     else ColumnSpec.autoKeyFrom ns 1 99998)⟩) := by
  rw [ColumnSpec.get_key_colname,
    show (mkColumnSpec cols).columns = cols from rfl, hfind,
    ColumnSpec.setup_auto_keyname]
  simp [mkColumnSpec, truthyOptStr, hg]

/-- C4 counterexample: a fresh instance whose single descriptor does not
declare `key=true`, on which `is_auto_keyname` nevertheless returns
false. -/
theorem C4_is_auto_keyname_cex :
    (∀ c ∈ (mkColumnSpec
        [Colinfo.mk (some "a") (some "number") false false false false]).columns,
      c.key = false) ∧
    ColumnSpec.is_auto_keyname (mkColumnSpec
        [Colinfo.mk (some "a") (some "number") false false false false]) = false := by
  decide

/-- C4 (amended): `is_auto_keyname` is false on a fresh instance, and after
a successful `get_key_colname` call it is true exactly when no descriptor
declares `key=true` (i.e. when the key name was synthesized). -/
theorem C4_is_auto_keyname_amended (cols : List Colinfo) (k : String)
    (s2 : ColumnSpec)
    (h : ColumnSpec.get_key_colname (mkColumnSpec cols) = some (k, s2)) :
    ColumnSpec.is_auto_keyname (mkColumnSpec cols) = false ∧
    (ColumnSpec.is_auto_keyname s2 = true ↔ ∀ c ∈ cols, c.key = false) := by
  refine ⟨rfl, ?_⟩
  cases hfind : List.find? (·.key) cols with
  | some c =>
    have hkey : c.key = true := by simpa using List.find?_some hfind
    have hcm : c ∈ cols := List.mem_of_find?_eq_some hfind
    cases hnm : c.name with
    | none =>
      rw [ColumnSpec.get_key_colname,
        show (mkColumnSpec cols).columns = cols from rfl, hfind] at h
      simp [hnm] at h
    | some nm =>
      rw [get_key_colname_of_key cols c nm hfind hnm, Option.some.injEq,
        Prod.mk.injEq] at h
      rw [← h.2]
      simp only [ColumnSpec.is_auto_keyname, mkColumnSpec, truthyOptStr]
      simp only [Bool.false_eq_true, false_iff]
      intro hall
      simpa [hkey] using hall c hcm
  | none =>
    cases hg : ColumnSpec.get_colnames cols with
    | none =>
      rw [ColumnSpec.get_key_colname,
        show (mkColumnSpec cols).columns = cols from rfl, hfind,
        ColumnSpec.setup_auto_keyname] at h
      simp [mkColumnSpec, truthyOptStr, hg] at h
    | some ns =>
      rw [get_key_colname_of_auto cols ns hfind hg, Option.some.injEq,
        Prod.mk.injEq] at h
      rw [← h.2]
      have hne : ¬((if "id" ∉ ns then "id"
          else ColumnSpec.autoKeyFrom ns 1 99998) = "") := by
        by_cases hid : "id" ∈ ns
        · simpa [hid] using autoKeyFrom_ne_empty ns 99998 1
        · simp [hid]
      have htrue : ColumnSpec.is_auto_keyname
          ⟨cols, some (if "id" ∉ ns then "id"
                       else ColumnSpec.autoKeyFrom ns 1 99998)⟩ = true := by
        simp only [ColumnSpec.is_auto_keyname, truthyOptStr]
        simpa using hne
      rw [htrue]
      constructor
      · intro _ x hx
        simpa using List.find?_eq_none.mp hfind x hx
      · intro _
        rfl

/-- C4 amended witness: on a fresh keyless instance `get_key_colname`
produces `"id"`, after which `is_auto_keyname` is true. -/
theorem C4_is_auto_keyname_amended_witness :
    ColumnSpec.get_key_colname (mkColumnSpec
        [Colinfo.mk (some "a") (some "number") false false false false]) =
      some ("id", ⟨[Colinfo.mk (some "a") (some "number") false false false false],
                   some "id"⟩) ∧
    (ColumnSpec.is_auto_keyname (mkColumnSpec
        [Colinfo.mk (some "a") (some "number") false false false false]) = false ∧
     (ColumnSpec.is_auto_keyname
          (⟨[Colinfo.mk (some "a") (some "number") false false false false],
            some "id"⟩ : ColumnSpec) = true ↔
        ∀ c ∈ [Colinfo.mk (some "a") (some "number") false false false false],
          c.key = false)) :=
  ⟨by decide,
   C4_is_auto_keyname_amended
     [Colinfo.mk (some "a") (some "number") false false false false] "id"
     ⟨[Colinfo.mk (some "a") (some "number") false false false false], some "id"⟩
     (by decide)⟩

/-!
## Claim C10
-/

theorem validate_ok_fields (cols : List Colinfo)
    (hOK : ColumnSpec.validate cols = Error.OK) :
    ∀ c ∈ cols, c.name.isSome ∧ c.type.isSome :=
  (((validateAux_eq_ok_iff cols false false).mp hOK).1)

theorem get_dtypesAux_isSome (cols : List Colinfo)
    (hwf : ∀ c ∈ cols, c.name.isSome ∧ c.type.isSome) :
    ∀ acc, (ColumnSpec.get_dtypesAux acc cols).isSome := by
  induction cols with
  | nil => intro acc; rfl
  | cons c rest ih =>
    intro acc
    obtain ⟨nm, hnm⟩ := Option.isSome_iff_exists.mp (hwf c (by simp)).1
    obtain ⟨t, ht⟩ := Option.isSome_iff_exists.mp (hwf c (by simp)).2
    have ihr := ih (fun x hx => hwf x (List.mem_cons_of_mem _ hx))
    rw [ColumnSpec.get_dtypesAux]
    cases hd : ColumnSpec.get_dtype_from_strtype t <;>
      simp [ht, hd, hnm, ihr]

theorem get_convertersAux_isSome (cols : List Colinfo)
    (hwf : ∀ c ∈ cols, c.name.isSome ∧ c.type.isSome) :
    ∀ acc, (ColumnSpec.get_convertersAux acc cols).isSome := by
  induction cols with
  | nil => intro acc; rfl
  | cons c rest ih =>
    intro acc
    obtain ⟨nm, hnm⟩ := Option.isSome_iff_exists.mp (hwf c (by simp)).1
    obtain ⟨t, ht⟩ := Option.isSome_iff_exists.mp (hwf c (by simp)).2
    have ihr := ih (fun x hx => hwf x (List.mem_cons_of_mem _ hx))
    rw [ColumnSpec.get_convertersAux]
    cases hd : ColumnSpec.get_converter_from_strtype t <;>
      simp [ht, hd, hnm, ihr]

theorem get_key_colname_isSome (cols : List Colinfo)
    (hwf : ∀ c ∈ cols, c.name.isSome) :
    (ColumnSpec.get_key_colname (mkColumnSpec cols)).isSome := by
  cases hfind : List.find? (·.key) cols with
  | some c =>
    obtain ⟨nm, hnm⟩ :=
      Option.isSome_iff_exists.mp (hwf c (List.mem_of_find?_eq_some hfind))
    rw [get_key_colname_of_key cols c nm hfind hnm]
    rfl
  | none =>
    rw [get_key_colname_of_auto cols (totalNames cols) hfind
      (get_colnames_eq_totalNames cols hwf)]
    rfl

theorem get_label_colname_isSome (cols : List Colinfo)
    (hwf : ∀ c ∈ cols, c.name.isSome) :
    (ColumnSpec.get_label_colname cols).isSome := by
  rw [ColumnSpec.get_label_colname]
  cases hfind : List.find? (·.label) cols with
  | some c =>
    obtain ⟨nm, hnm⟩ :=
      Option.isSome_iff_exists.mp (hwf c (List.mem_of_find?_eq_some hfind))
    simp [hnm]
  | none => rfl

theorem get_train_colname_isSome (cols : List Colinfo)
    (hwf : ∀ c ∈ cols, c.name.isSome) :
    (ColumnSpec.get_train_colname cols).isSome := by
  rw [ColumnSpec.get_train_colname]
  cases hfind : List.find? (·.train) cols with
  | some c =>
    obtain ⟨nm, hnm⟩ :=
      Option.isSome_iff_exists.mp (hwf c (List.mem_of_find?_eq_some hfind))
    simp [hnm]
  | none => rfl

theorem get_bypass_colnames_isSome (cols : List Colinfo)
    (hwf : ∀ c ∈ cols, c.name.isSome) :
    (ColumnSpec.get_bypass_colnames cols).isSome := by
  induction cols with
  | nil => rfl
  | cons c rest ih =>
    obtain ⟨nm, hnm⟩ := Option.isSome_iff_exists.mp (hwf c (by simp))
    have ihr := ih (fun x hx => hwf x (List.mem_cons_of_mem _ hx))
    obtain ⟨r, hr⟩ := Option.isSome_iff_exists.mp ihr
    rw [ColumnSpec.get_bypass_colnames]
    cases hb : c.bypass <;> simp [hnm, hr]

theorem get_is_numerics_isSome (cols : List Colinfo)
    (hwf : ∀ c ∈ cols, c.type.isSome) :
    (ColumnSpec.get_is_numerics cols).isSome := by
  induction cols with
  | nil => rfl
  | cons c rest ih =>
    obtain ⟨t, ht⟩ := Option.isSome_iff_exists.mp (hwf c (by simp))
    have ihr := ih (fun x hx => hwf x (List.mem_cons_of_mem _ hx))
    obtain ⟨r, hr⟩ := Option.isSome_iff_exists.mp ihr
    rw [ColumnSpec.get_is_numerics]
    cases hb : (c.label || c.bypass) <;> simp [ht, hb, hr]

/-- C10: on a descriptor list accepted by `validate`, every other
`ColumnSpec` query succeeds — no `name`/`type` access can fail. -/
theorem C10_queries_total (cols : List Colinfo)
    (hOK : ColumnSpec.validate cols = Error.OK) :
    (ColumnSpec.get_colnames cols).isSome ∧
    (∀ numeric_only label_only exclude_skip : Bool,
      (ColumnSpec.get_usecols cols numeric_only label_only exclude_skip).isSome) ∧
    (ColumnSpec.get_dtypes cols).isSome ∧
    (ColumnSpec.get_converters cols).isSome ∧
    (ColumnSpec.get_key_colname (mkColumnSpec cols)).isSome ∧
    (ColumnSpec.get_label_colname cols).isSome ∧
    (ColumnSpec.get_train_colname cols).isSome ∧
    (ColumnSpec.get_bypass_colnames cols).isSome ∧
    (ColumnSpec.get_is_numerics cols).isSome := by
  have hwf := validate_ok_fields cols hOK
  have hwfn : ∀ c ∈ cols, c.name.isSome := fun c hc => (hwf c hc).1
  have hwft : ∀ c ∈ cols, c.type.isSome := fun c hc => (hwf c hc).2
  refine ⟨?_, ?_, ?_, ?_, ?_, ?_, ?_, ?_, ?_⟩
  · rw [get_colnames_eq_totalNames cols hwfn]; rfl
  · intro n l e
    rw [get_usecols_eq_spec cols hwf n l e]; rfl
  · exact get_dtypesAux_isSome cols hwf []
  · exact get_convertersAux_isSome cols hwf []
  · exact get_key_colname_isSome cols hwfn
  · exact get_label_colname_isSome cols hwfn
  · exact get_train_colname_isSome cols hwfn
  · exact get_bypass_colnames_isSome cols hwfn
  · exact get_is_numerics_isSome cols hwft

/-- C10 witness: a one-column valid descriptor list on which every query
succeeds. -/
theorem C10_queries_total_witness :
    ColumnSpec.validate
        [Colinfo.mk (some "a") (some "number") true false false false] = Error.OK ∧
    ((ColumnSpec.get_colnames
        [Colinfo.mk (some "a") (some "number") true false false false]).isSome ∧
     (∀ numeric_only label_only exclude_skip : Bool,
       (ColumnSpec.get_usecols
         [Colinfo.mk (some "a") (some "number") true false false false]
         numeric_only label_only exclude_skip).isSome) ∧
     (ColumnSpec.get_dtypes
        [Colinfo.mk (some "a") (some "number") true false false false]).isSome ∧
     (ColumnSpec.get_converters
        [Colinfo.mk (some "a") (some "number") true false false false]).isSome ∧
     (ColumnSpec.get_key_colname (mkColumnSpec
        [Colinfo.mk (some "a") (some "number") true false false false])).isSome ∧
     (ColumnSpec.get_label_colname
        [Colinfo.mk (some "a") (some "number") true false false false]).isSome ∧
     (ColumnSpec.get_train_colname
        [Colinfo.mk (some "a") (some "number") true false false false]).isSome ∧
     (ColumnSpec.get_bypass_colnames
        [Colinfo.mk (some "a") (some "number") true false false false]).isSome ∧
     (ColumnSpec.get_is_numerics
        [Colinfo.mk (some "a") (some "number") true false false false]).isSome) :=
  ⟨by decide,
   C10_queries_total
     [Colinfo.mk (some "a") (some "number") true false false false] (by decide)⟩

/-!
## Claim C5
-/

theorem dedup_length_options {α : Type} [DecidableEq α] (vals : List (Option α)) :
    vals.dedup.length =
      (vals.filterMap id).dedup.length + (if none ∈ vals then 1 else 0) := by
  induction vals with
  | nil => rfl
  | cons v rest ih =>
    cases v with
    | none =>
      by_cases h : (none : Option α) ∈ rest
      · simp only [List.dedup_cons_of_mem h, List.filterMap_cons, id]
        simp only [h, if_pos] at ih
        simp [ih]
      · simp only [List.dedup_cons_of_not_mem h, List.filterMap_cons, id]
        simp only [h, if_neg, if_false] at ih
        simp [ih]
    | some a =>
      by_cases h : some a ∈ rest
      · have h2 : a ∈ rest.filterMap id :=
          List.mem_filterMap.mpr ⟨some a, h, rfl⟩
        simp only [List.dedup_cons_of_mem h, List.filterMap_cons, id,
          List.dedup_cons_of_mem h2]
        simp [ih]
      · have h2 : a ∉ rest.filterMap id := by
          intro hc
          obtain ⟨x, hx, he⟩ := List.mem_filterMap.mp hc
          rw [show id x = x from rfl] at he
          rw [he] at hx
          exact h hx
        simp only [List.dedup_cons_of_not_mem h, List.filterMap_cons, id,
          List.dedup_cons_of_not_mem h2]
        simp [ih]
        omega

theorem nunique_false_eq_distinctWithMissing {α : Type} [DecidableEq α]
    (vals : List (Option α)) :
    nunique vals false = distinctWithMissing vals := by
  rw [nunique, distinctWithMissing]
  simpa using dedup_length_options vals

theorem find?_name_of_mem {α : Type} (df : DataFrame α) (c : Column α)
    (hnd : (colNames df).Nodup) (hc : c ∈ df) :
    df.find? (fun x => x.name == c.name) = some c := by
  induction df with
  | nil => cases hc
  | cons d rest ih =>
    have hnd1 : d.name ∉ List.map Column.name rest ∧
        (List.map Column.name rest).Nodup := by
      have h := hnd
      rw [colNames, List.map_cons] at h
      exact List.nodup_cons.mp h
    rcases List.mem_cons.mp hc with rfl | hmem
    · simp [List.find?_cons]
    · have hne : (d.name == c.name) = false := by
        simp only [beq_eq_false_iff_ne, ne_eq]
        intro he
        rw [he] at hnd1
        exact hnd1.1 (List.mem_map_of_mem _ hmem)
      rw [List.find?_cons]
      simp only [hne]
      exact ih (by simpa [colNames] using hnd1.2) hmem

theorem selectByNames_of_sublist {α : Type} (df : DataFrame α)
    (hnd : (colNames df).Nodup) :
    ∀ sub : DataFrame α, sub.Sublist df →
      selectByNames df (sub.map Column.name) = sub := by
  intro sub
  induction sub with
  | nil => intro h; rfl
  | cons c rest ih =>
    intro hsub
    have hc : c ∈ df := hsub.subset (by simp)
    have htail : rest.Sublist df := (List.sublist_cons_self c rest).trans hsub
    rw [List.map_cons, selectByNames, List.filterMap_cons,
      find?_name_of_mem df c hnd hc]
    rw [selectByNames] at ih
    rw [ih htail]

/-- C5: `remove_low_information_features` returns the matrix restricted to
exactly the columns with more than one distinct value (missing counted as a
value) and at least one non-missing cell, in the original column order (the
non-mutation part of the claim is inherent in the purely functional
embedding). -/
theorem C5_remove_low_information {α : Type} [DecidableEq α] (df : DataFrame α)
    (hnd : (colNames df).Nodup) (features : Option (List String)) :
    (remove_low_information_features df features).1 =
      df.filter (fun c => decide (1 < distinctWithMissing c.values) &&
                          decide (0 < countNonMissing c.values)) ∧
    (colNames (remove_low_information_features df features).1).Sublist
      (colNames df) := by
  have hfilter : df.filter (fun c => decide (1 < nunique c.values false) &&
        decide (0 < countNonMissing c.values)) =
      df.filter (fun c => decide (1 < distinctWithMissing c.values) &&
        decide (0 < countNonMissing c.values)) := by
    apply List.filter_congr
    intro c _
    rw [nunique_false_eq_distinctWithMissing]
  have hsel : selectByNames df ((df.filter (fun c =>
        decide (1 < nunique c.values false) &&
        decide (0 < countNonMissing c.values))).map Column.name) =
      df.filter (fun c => decide (1 < nunique c.values false) &&
        decide (0 < countNonMissing c.values)) :=
    selectByNames_of_sublist df hnd _ (List.filter_sublist df)
  have hfm : (remove_low_information_features df features).1 =
      df.filter (fun c => decide (1 < distinctWithMissing c.values) &&
        decide (0 < countNonMissing c.values)) := by
    rw [hfilter] at hsel
    cases features <;>
      simp only [remove_low_information_features, hfilter, hsel]
  refine ⟨hfm, ?_⟩
  rw [hfm, ← hfilter, colNames, colNames]
  exact (List.filter_sublist df).map Column.name

/-- C5 witness: a constant column is dropped, a varying one kept. -/
theorem C5_remove_low_information_witness :
    (colNames ([⟨"c1", DType.int64, [some 1, some 1, some 1]⟩,
        ⟨"c2", DType.int64, [some (1 : Int), some 2, some 3]⟩] :
        DataFrame Int)).Nodup ∧
    ((remove_low_information_features
        ([⟨"c1", DType.int64, [some 1, some 1, some 1]⟩,
          ⟨"c2", DType.int64, [some (1 : Int), some 2, some 3]⟩] : DataFrame Int)
        none).1 =
      List.filter (fun c => decide (1 < distinctWithMissing c.values) &&
          decide (0 < countNonMissing c.values))
        [⟨"c1", DType.int64, [some 1, some 1, some 1]⟩,
         ⟨"c2", DType.int64, [some (1 : Int), some 2, some 3]⟩] ∧
     (colNames (remove_low_information_features
        ([⟨"c1", DType.int64, [some 1, some 1, some 1]⟩,
          ⟨"c2", DType.int64, [some (1 : Int), some 2, some 3]⟩] : DataFrame Int)
        none).1).Sublist
       (colNames ([⟨"c1", DType.int64, [some 1, some 1, some 1]⟩,
          ⟨"c2", DType.int64, [some (1 : Int), some 2, some 3]⟩] :
          DataFrame Int))) ∧
    colNames (remove_low_information_features
        ([⟨"c1", DType.int64, [some 1, some 1, some 1]⟩,
          ⟨"c2", DType.int64, [some (1 : Int), some 2, some 3]⟩] : DataFrame Int)
        none).1 = ["c2"] :=
  ⟨by decide,
   C5_remove_low_information
     [⟨"c1", DType.int64, [some 1, some 1, some 1]⟩,
      ⟨"c2", DType.int64, [some (1 : Int), some 2, some 3]⟩] (by decide) none,
   by decide⟩

/-!
## Claim C6
-/

theorem pctNull_eq_missingFraction {α : Type} (vals : List (Option α)) :
    pctNull vals = missingFraction vals := by
  rw [pctNull, missingFraction, List.countP_eq_length_filter]

theorem nodup_name_inj {α : Type} (df : DataFrame α)
    (hnd : (colNames df).Nodup) {c c2 : Column α}
    (hc : c ∈ df) (hc2 : c2 ∈ df) (he : c.name = c2.name) : c = c2 := by
  exact List.inj_on_of_nodup_map (by simpa [colNames] using hnd) hc hc2 he

/-- Membership in the name-filter-map pattern shared by the two per-column
threshold filters. -/
theorem mem_map_fst_filter_map {α β : Type} (df : DataFrame α)
    (f : Column α → β) (q : β → Bool) (n : String) :
    (n ∈ ((df.map (fun c => (c.name, f c))).filter (fun p => q p.2)).map
        Prod.fst) ↔
      ∃ c ∈ df, c.name = n ∧ q (f c) = true := by
  induction df with
  | nil => simp
  | cons d rest ih =>
    rw [List.map_cons, List.filter_cons]
    cases hq : q (f d)
    · simp only [Bool.false_eq_true, if_false]
      rw [ih]
      constructor
      · rintro ⟨c, hc, h1, h2⟩
        exact ⟨c, List.mem_cons_of_mem _ hc, h1, h2⟩
      · rintro ⟨c, hc, h1, h2⟩
        rcases List.mem_cons.mp hc with rfl | hm
        · rw [h2] at hq
          cases hq
        · exact ⟨c, hm, h1, h2⟩
    · simp only [if_true, List.map_cons]
      rw [List.mem_cons, ih]
      constructor
      · rintro (rfl | ⟨c, hc, h1, h2⟩)
        · exact ⟨d, List.mem_cons_self d rest, rfl, hq⟩
        · exact ⟨c, List.mem_cons_of_mem _ hc, h1, h2⟩
      · rintro ⟨c, hc, h1, h2⟩
        rcases List.mem_cons.mp hc with rfl | hm
        · left
          rw [h1]
        · right
          exact ⟨c, hm, h1, h2⟩

/-- C6: with a threshold in `[0, 1]`, `find_highly_null_features` succeeds
and returns exactly the names of the columns whose missing fraction is
strictly greater than the threshold; a column whose fraction equals the
threshold is not returned. -/
theorem C6_find_highly_null_strict {α : Type} (df : DataFrame α) (t : ℚ)
    (h0 : 0 ≤ t) (h1 : t ≤ 1) (hnd : (colNames df).Nodup) :
    ∃ l, find_highly_null_features df t = Except.ok l ∧
      (∀ n, n ∈ l ↔ ∃ c ∈ df, c.name = n ∧ t < missingFraction c.values) ∧
      (∀ c ∈ df, missingFraction c.values = t → c.name ∉ l) := by
  have hguard : ¬(t < 0 ∨ t > 1) := by
    push_neg
    exact ⟨h0, h1⟩
  refine ⟨((df.map (fun c => (c.name, pctNull c.values))).filter
      (fun p => decide (p.2 > t))).map Prod.fst, ?_, ?_, ?_⟩
  · rw [find_highly_null_features, if_neg hguard]
  · intro n
    rw [mem_map_fst_filter_map df (fun c => pctNull c.values)
      (fun x => decide (x > t)) n]
    constructor
    · rintro ⟨c, hc, h1, h2⟩
      refine ⟨c, hc, h1, ?_⟩
      rw [← pctNull_eq_missingFraction]
      exact of_decide_eq_true h2
    · rintro ⟨c, hc, h1, h2⟩
      refine ⟨c, hc, h1, decide_eq_true ?_⟩
      rw [pctNull_eq_missingFraction]
      exact h2
  · intro c hc heq hmem
    rw [mem_map_fst_filter_map df (fun c => pctNull c.values)
      (fun x => decide (x > t)) c.name] at hmem
    obtain ⟨c2, hc2, h1, h2⟩ := hmem
    have hcc : c2 = c := nodup_name_inj df hnd hc2 hc h1
    have hgt : pctNull c2.values > t := of_decide_eq_true h2
    rw [hcc, pctNull_eq_missingFraction, heq] at hgt
    exact lt_irrefl t hgt

/-- C6 witness: at threshold `1/2`, a column with exactly half its cells
missing is excluded while one with two thirds missing is included. -/
theorem C6_find_highly_null_strict_witness :
    ((0 : ℚ) ≤ 1/2 ∧ (1/2 : ℚ) ≤ 1 ∧
     (colNames ([⟨"x", DType.float64, [none, some 1]⟩,
        ⟨"y", DType.float64, [none, none, some (1 : Int)]⟩] :
        DataFrame Int)).Nodup) ∧
    ∃ l, find_highly_null_features
        ([⟨"x", DType.float64, [none, some 1]⟩,
          ⟨"y", DType.float64, [none, none, some (1 : Int)]⟩] : DataFrame Int)
        (1/2) = Except.ok l ∧
      (∀ n, n ∈ l ↔ ∃ c ∈ ([⟨"x", DType.float64, [none, some 1]⟩,
          ⟨"y", DType.float64, [none, none, some (1 : Int)]⟩] : DataFrame Int),
        c.name = n ∧ (1/2 : ℚ) < missingFraction c.values) ∧
      (∀ c ∈ ([⟨"x", DType.float64, [none, some 1]⟩,
          ⟨"y", DType.float64, [none, none, some (1 : Int)]⟩] : DataFrame Int),
        missingFraction c.values = 1/2 → c.name ∉ l) :=
  ⟨⟨by norm_num, by norm_num, by decide⟩,
   C6_find_highly_null_strict _ (1/2) (by norm_num) (by norm_num) (by decide)⟩

/-!
## Claim C7
-/

theorem nunique_eq_distinctSpec {α : Type} [DecidableEq α]
    (count_nan_as_value : Bool) (vals : List (Option α)) :
    nunique vals (!count_nan_as_value) = distinctSpec count_nan_as_value vals := by
  cases count_nan_as_value
  · rw [nunique, distinctSpec]
    simp
  · rw [nunique, distinctSpec]
    simpa using dedup_length_options vals

/-- C7: on a frame with distinct column labels (the domain on which the
per-column list model agrees with the program's `.to_dict()`, whose
duplicate-label collapse the model does not reproduce),
`find_single_value_features` returns exactly the names of columns whose
distinct-value count is at most 1, where missing values are excluded from
the count when `count_nan_as_value` is false (an all-missing column counts
0 and is returned) and count as one distinct value when it is true. -/
theorem C7_find_single_value_counts {α : Type} [DecidableEq α]
    (df : DataFrame α) (count_nan_as_value : Bool)
    (_hnd : (colNames df).Nodup) :
    ∀ n, n ∈ find_single_value_features df count_nan_as_value ↔
      ∃ c ∈ df, c.name = n ∧ distinctSpec count_nan_as_value c.values ≤ 1 := by
  intro n
  rw [find_single_value_features]
  rw [mem_map_fst_filter_map df
    (fun c => nunique c.values (!count_nan_as_value)) (fun x => decide (x ≤ 1)) n]
  constructor
  · rintro ⟨c, hc, h1, h2⟩
    refine ⟨c, hc, h1, ?_⟩
    rw [← nunique_eq_distinctSpec]
    exact of_decide_eq_true h2
  · rintro ⟨c, hc, h1, h2⟩
    refine ⟨c, hc, h1, decide_eq_true ?_⟩
    rw [nunique_eq_distinctSpec]
    exact h2

/-- C7 witness: an all-missing column is single-value under either flag; a
column with two distinct values plus a missing cell is single-value under
neither. -/
theorem C7_find_single_value_counts_witness :
    (colNames ([⟨"x", DType.float64, [none, none]⟩,
        ⟨"y", DType.float64, [some (1 : Int), some 2, none]⟩] :
        DataFrame Int)).Nodup ∧
    (∀ n, n ∈ find_single_value_features
        ([⟨"x", DType.float64, [none, none]⟩,
          ⟨"y", DType.float64, [some (1 : Int), some 2, none]⟩] : DataFrame Int)
        false ↔
      ∃ c ∈ ([⟨"x", DType.float64, [none, none]⟩,
          ⟨"y", DType.float64, [some (1 : Int), some 2, none]⟩] : DataFrame Int),
        c.name = n ∧ distinctSpec false c.values ≤ 1) ∧
    find_single_value_features
        ([⟨"x", DType.float64, [none, none]⟩,
          ⟨"y", DType.float64, [some (1 : Int), some 2, none]⟩] : DataFrame Int)
        false = ["x"] ∧
    find_single_value_features
        ([⟨"x", DType.float64, [none, none]⟩,
          ⟨"y", DType.float64, [some (1 : Int), some 2, none]⟩] : DataFrame Int)
        true = ["x"] :=
  ⟨by decide,
   C7_find_single_value_counts
     [⟨"x", DType.float64, [none, none]⟩,
      ⟨"y", DType.float64, [some (1 : Int), some 2, none]⟩] false (by decide),
   by decide, by decide⟩

/-!
## Claim C9
-/

theorem selectColsE_error_keyError {α : Type} (df : DataFrame α) :
    ∀ (ns : List String) (e : PyError),
      selectColsE df ns = Except.error e → ∃ n, e = PyError.keyError n := by
  intro ns
  induction ns with
  | nil =>
    intro e h
    simp [selectColsE] at h
  | cons n rest ih =>
    intro e h
    rw [selectColsE] at h
    cases hf : df.find? (fun c => c.name == n) with
    | none =>
      rw [hf] at h
      exact ⟨n, by injection h with h2; rw [h2]⟩
    | some c =>
      rw [hf] at h
      cases hr : selectColsE df rest with
      | error e2 =>
        rw [hr] at h
        have h2 : (Except.error e2 : Except PyError (DataFrame α)) =
            Except.error e := h
        injection h2 with h3
        obtain ⟨n2, hn⟩ := ih e2 hr
        exact ⟨n2, h3 ▸ hn⟩
      | ok r =>
        rw [hr] at h
        have h2 : (Except.ok (c :: r) : Except PyError (DataFrame α)) =
            Except.error e := h
        exact Except.noConfusion h2

theorem bind_selectColsE_no_valueError {α β : Type} (df : DataFrame α)
    (ns : List String) (f : DataFrame α → Except PyError β)
    (hf : ∀ sub m2, ¬(f sub = Except.error (PyError.valueError m2)))
    (m : String) :
    ¬((selectColsE df ns >>= f) = Except.error (PyError.valueError m)) := by
  intro h
  cases hsel : selectColsE df ns with
  | error e =>
    rw [hsel] at h
    have h2 : (Except.error e : Except PyError β) =
        Except.error (PyError.valueError m) := h
    injection h2 with h3
    obtain ⟨n2, hn⟩ := selectColsE_error_keyError df ns e hsel
    rw [h3] at hn
    cases hn
  | ok sub =>
    rw [hsel] at h
    have h2 : f sub = Except.error (PyError.valueError m) := h
    exact hf sub m h2

/-- C9: both threshold-guarded filters fail with the invalid-argument
(`ValueError`) failure exactly when the threshold lies outside `[0, 1]`,
and in that case they fail with the fixed message for every matrix, before
any computation touches it. -/
theorem C9_threshold_guard {α : Type} (df : DataFrame α) (t : ℚ)
    (corr : List (Option α) → List (Option α) → ℚ)
    (ftc fte : Option (List String)) :
    ((∃ m, find_highly_null_features df t = Except.error (PyError.valueError m)) ↔
      (t < 0 ∨ t > 1)) ∧
    ((∃ m, find_highly_correlated_features corr df t ftc fte =
        Except.error (PyError.valueError m)) ↔ (t < 0 ∨ t > 1)) ∧
    ((t < 0 ∨ t > 1) →
      find_highly_null_features df t = Except.error (PyError.valueError
        "pct_null_threshold must be a float between 0 and 1, inclusive.") ∧
      find_highly_correlated_features corr df t ftc fte =
        Except.error (PyError.valueError
          "pct_corr_threshold must be a float between 0 and 1, inclusive.")) := by
  by_cases h : t < 0 ∨ t > 1
  · refine ⟨?_, ?_, ?_⟩
    · rw [find_highly_null_features, if_pos h]
      exact ⟨fun _ => h, fun _ => ⟨_, rfl⟩⟩
    · unfold find_highly_correlated_features
      rw [if_pos h]
      exact ⟨fun _ => h, fun _ => ⟨_, rfl⟩⟩
    · intro _
      constructor
      · rw [find_highly_null_features, if_pos h]
      · unfold find_highly_correlated_features
        rw [if_pos h]
  · refine ⟨?_, ?_, fun hc => absurd hc h⟩
    · rw [find_highly_null_features, if_neg h]
      simp only [h, iff_false, not_exists]
      intro m hm
      exact Except.noConfusion hm
    · unfold find_highly_correlated_features
      rw [if_neg h]
      simp only [h, iff_false, not_exists]
      intro m
      exact bind_selectColsE_no_valueError df _ _
        (fun sub m2 h2 => Except.noConfusion h2) m

/-- C9 witness: at threshold `2` both filters fail with the fixed
invalid-argument error on an empty matrix. -/
theorem C9_threshold_guard_witness :
    ((2 : ℚ) < 0 ∨ (2 : ℚ) > 1) ∧
    (find_highly_null_features ([] : DataFrame Int) 2 =
      Except.error (PyError.valueError
        "pct_null_threshold must be a float between 0 and 1, inclusive.") ∧
     find_highly_correlated_features (fun _ _ => 0) ([] : DataFrame Int) 2
        none none =
      Except.error (PyError.valueError
        "pct_corr_threshold must be a float between 0 and 1, inclusive.")) :=
  ⟨Or.inr (by norm_num),
   (C9_threshold_guard ([] : DataFrame Int) 2 (fun _ _ => 0) none none).2.2
     (Or.inr (by norm_num))⟩

/-!
## Claim C8

The dict-deduplicated double loop is first proved equal to the straight
enumeration `canonicalPairs` (each earlier column paired once with each
later column), from which membership and uniqueness of the returned pairs
follow.
-/

theorem sortPair_comm (a b : String) : sortPair a b = sortPair b a := by
  rw [sortPair, sortPair]
  rcases le_total a b with h | h
  · by_cases he : b ≤ a
    · rw [if_pos h, if_pos he, le_antisymm h he]
    · rw [if_pos h, if_neg he]
  · by_cases he : a ≤ b
    · rw [if_pos he, if_pos h, le_antisymm he h]
    · rw [if_neg he, if_pos h]

theorem sortPair_eq_iff (a b x y : String) (h : sortPair a b = sortPair x y) :
    (a = x ∧ b = y) ∨ (a = y ∧ b = x) := by
  rw [sortPair, sortPair] at h
  by_cases h1 : a ≤ b <;> by_cases h2 : x ≤ y
  · rw [if_pos h1, if_pos h2] at h
    exact Or.inl ⟨congrArg Prod.fst h, congrArg Prod.snd h⟩
  · rw [if_pos h1, if_neg h2] at h
    exact Or.inr ⟨congrArg Prod.fst h, congrArg Prod.snd h⟩
  · rw [if_neg h1, if_pos h2] at h
    exact Or.inr ⟨congrArg Prod.snd h, congrArg Prod.fst h⟩
  · rw [if_neg h1, if_neg h2] at h
    exact Or.inl ⟨congrArg Prod.snd h, congrArg Prod.fst h⟩

theorem corrInner_skip {α : Type} (corr : List (Option α) → List (Option α) → ℚ)
    (c1 : Column α) :
    ∀ (xs rest : List (Column α)) (acc : List ((String × String) × ℚ)),
      (∀ x ∈ xs, c1.name = x.name ∨
        sortPair c1.name x.name ∈ acc.map Prod.fst) →
      corrInner corr c1 (xs ++ rest) acc = corrInner corr c1 rest acc := by
  intro xs
  induction xs with
  | nil => intro rest acc h; rfl
  | cons x xs ih =>
    intro rest acc h
    rw [List.cons_append, corrInner, if_pos (h x (by simp))]
    exact ih rest acc (fun y hy => h y (by simp [hy]))

theorem corrInner_insert {α : Type} (corr : List (Option α) → List (Option α) → ℚ)
    (c1 : Column α) :
    ∀ (xs : List (Column α)) (acc : List ((String × String) × ℚ)),
      (∀ x ∈ xs, ¬(c1.name = x.name)) →
      (∀ x ∈ xs, sortPair c1.name x.name ∉ acc.map Prod.fst) →
      (xs.map Column.name).Nodup →
      corrInner corr c1 xs acc =
        acc ++ xs.map (fun c2 =>
          (sortPair c1.name c2.name, |corr c1.values c2.values|)) := by
  intro xs
  induction xs with
  | nil => intro acc h1 h2 h3; simp [corrInner]
  | cons x xs ih =>
    intro acc h1 h2 h3
    have hskip : ¬(c1.name = x.name ∨
        sortPair c1.name x.name ∈ acc.map Prod.fst) := by
      rintro (hx | hx)
      · exact h1 x (by simp) hx
      · exact h2 x (by simp) hx
    rw [corrInner, if_neg hskip]
    have hx_notin : x.name ∉ xs.map Column.name ∧
        (xs.map Column.name).Nodup := by
      rw [List.map_cons] at h3
      exact List.nodup_cons.mp h3
    rw [ih (acc ++ [(sortPair c1.name x.name, |corr c1.values x.values|)])
      (fun y hy => h1 y (by simp [hy]))
      ?hkeys hx_notin.2]
    · simp
    case hkeys =>
      intro y hy
      rw [List.map_append]
      intro hmem
      rcases List.mem_append.mp hmem with hm | hm
      · exact h2 y (by simp [hy]) hm
      · simp only [List.map_cons, List.map_nil, List.mem_singleton] at hm
        rcases sortPair_eq_iff _ _ _ _ hm with ⟨_, h5⟩ | ⟨h4, h5⟩
        · rw [← h5] at hx_notin
          exact hx_notin.1 (List.mem_map_of_mem _ hy)
        · exact h1 y (by simp [hy]) h5.symm

theorem corrOuter_eq_canonical {α : Type}
    (corr : List (Option α) → List (Option α) → ℚ) (all : List (Column α))
    (hnd : (all.map Column.name).Nodup) :
    ∀ (suf pre : List (Column α)) (acc : List ((String × String) × ℚ)),
      all = pre ++ suf →
      (∀ p, p ∈ acc.map Prod.fst ↔ ∃ a ∈ all, ∃ b ∈ all,
          a.name ≠ b.name ∧ p = sortPair a.name b.name ∧
          (a ∈ pre ∨ b ∈ pre)) →
      corrOuter corr all suf acc = acc ++ canonicalPairs corr suf := by
  intro suf
  induction suf with
  | nil =>
    intro pre acc hall hkeys
    simp [corrOuter, canonicalPairs]
  | cons c1 suf ih =>
    intro pre acc hall hkeys
    have hnd2 := hnd
    rw [hall, List.map_append] at hnd2
    obtain ⟨hndpre, hndtail, hdisj⟩ := List.nodup_append.mp hnd2
    have hndtail2 := hndtail
    rw [List.map_cons] at hndtail2
    obtain ⟨hc1suf, hndsuf⟩ := List.nodup_cons.mp hndtail2
    have hc1pre : c1 ∉ pre := by
      intro hmem
      exact hdisj (List.mem_map_of_mem Column.name hmem) (by simp)
    have hprename : ∀ x ∈ pre, x.name ≠ c1.name := by
      intro x hx he
      exact hdisj (List.mem_map_of_mem Column.name hx) (by simp [he])
    have hsufname : ∀ y ∈ suf, c1.name ≠ y.name := by
      intro y hy he
      exact hc1suf (by rw [he]; exact List.mem_map_of_mem Column.name hy)
    have hsufpre : ∀ y ∈ suf, y ∉ pre := by
      intro y hy hmem
      exact hdisj (List.mem_map_of_mem Column.name hmem)
        (by simp [List.mem_map_of_mem Column.name hy])
    have hc1all : c1 ∈ all := by rw [hall]; simp
    have hsufall : ∀ y ∈ suf, y ∈ all := by
      intro y hy
      rw [hall]
      simp [hy]
    have hpreall : ∀ x ∈ pre, x ∈ all := by
      intro x hx
      rw [hall]
      simp [hx]
    have hinj : ∀ {a b : Column α}, a ∈ all → b ∈ all → a.name = b.name →
        a = b := fun ha hb he => nodup_name_inj all hnd ha hb he
    have hsplit : all = (pre ++ [c1]) ++ suf := by rw [hall]; simp
    have hinner : corrInner corr c1 all acc =
        acc ++ suf.map (fun c2 =>
          (sortPair c1.name c2.name, |corr c1.values c2.values|)) := by
      rw [show corrInner corr c1 all acc =
          corrInner corr c1 ((pre ++ [c1]) ++ suf) acc by rw [← hsplit]]
      rw [corrInner_skip corr c1 (pre ++ [c1]) suf acc ?hskip]
      case hskip =>
        intro x hx
        rcases List.mem_append.mp hx with hxp | hxc
        · right
          rw [hkeys]
          refine ⟨x, hpreall x hxp, c1, hc1all, hprename x hxp, ?_, Or.inl hxp⟩
          rw [sortPair_comm]
        · left
          rw [List.mem_singleton.mp hxc]
      rw [corrInner_insert corr c1 suf acc (fun y hy => hsufname y hy) ?hfree hndsuf]
      case hfree =>
        intro y hy hmem
        rw [hkeys] at hmem
        obtain ⟨a, ha, b, hb, hne, hp, hpre⟩ := hmem
        rcases sortPair_eq_iff _ _ _ _ hp.symm with ⟨h4, h5⟩ | ⟨h4, h5⟩
        · have ha2 : a = c1 := hinj ha hc1all h4
          have hb2 : b = y := hinj hb (hsufall y hy) h5
          rcases hpre with hap | hbp
          · rw [ha2] at hap
            exact hc1pre hap
          · rw [hb2] at hbp
            exact hsufpre y hy hbp
        · have ha2 : a = y := hinj ha (hsufall y hy) h4
          have hb2 : b = c1 := hinj hb hc1all h5
          rcases hpre with hap | hbp
          · rw [ha2] at hap
            exact hsufpre y hy hap
          · rw [hb2] at hbp
            exact hc1pre hbp
    rw [corrOuter, hinner]
    rw [ih (pre ++ [c1])
      (acc ++ suf.map (fun c2 =>
        (sortPair c1.name c2.name, |corr c1.values c2.values|)))
      (by rw [hsplit]) ?hkeys2]
    · rw [canonicalPairs]
      simp [List.append_assoc]
    case hkeys2 =>
      intro p
      rw [List.map_append, List.mem_append]
      constructor
      · rintro (hp | hp)
        · obtain ⟨a, ha, b, hb, hne, hpp, hpre⟩ := (hkeys p).mp hp
          refine ⟨a, ha, b, hb, hne, hpp, ?_⟩
          rcases hpre with h | h
          · exact Or.inl (List.mem_append_left _ h)
          · exact Or.inr (List.mem_append_left _ h)
        · rw [List.map_map] at hp
          obtain ⟨y, hy, hpy⟩ := List.mem_map.mp hp
          refine ⟨c1, hc1all, y, hsufall y hy, hsufname y hy, ?_, ?_⟩
          · rw [← hpy]
            rfl
          · exact Or.inl (List.mem_append_right _ (by simp))
      · rintro ⟨a, ha, b, hb, hne, hpp, hpre⟩
        have hmemold : (a ∈ pre ∨ b ∈ pre) →
            p ∈ List.map Prod.fst acc := by
          intro hcase
          exact (hkeys p).mpr ⟨a, ha, b, hb, hne, hpp, hcase⟩
        have hcontrib : ∀ y ∈ suf, p = sortPair c1.name y.name →
            p ∈ List.map Prod.fst (List.map (fun c2 =>
              (sortPair c1.name c2.name, |corr c1.values c2.values|)) suf) := by
          intro y hy hpy
          rw [List.map_map]
          exact List.mem_map.mpr ⟨y, hy, by simp [hpy]⟩
        rcases hpre with hap | hbp
        · rcases List.mem_append.mp hap with hapre | hac1
          · exact Or.inl (hmemold (Or.inl hapre))
          · have ha2 : a = c1 := List.mem_singleton.mp hac1
            have hball : b ∈ pre ++ c1 :: suf := by rw [← hall]; exact hb
            rcases List.mem_append.mp hball with hbpre | hbtail
            · exact Or.inl (hmemold (Or.inr hbpre))
            · rcases List.mem_cons.mp hbtail with hbc1 | hbsuf
              · rw [ha2, hbc1] at hne
                exact absurd rfl hne
              · refine Or.inr (hcontrib b hbsuf ?_)
                rw [hpp, ha2]
        · rcases List.mem_append.mp hbp with hbpre | hbc1
          · exact Or.inl (hmemold (Or.inr hbpre))
          · have hb2 : b = c1 := List.mem_singleton.mp hbc1
            have haall : a ∈ pre ++ c1 :: suf := by rw [← hall]; exact ha
            rcases List.mem_append.mp haall with hapre | hatail
            · exact Or.inl (hmemold (Or.inl hapre))
            · rcases List.mem_cons.mp hatail with hac1 | hasuf
              · rw [hac1, hb2] at hne
                exact absurd rfl hne
              · refine Or.inr (hcontrib a hasuf ?_)
                rw [hpp, hb2, sortPair_comm]

theorem corrOuter_full_eq_canonical {α : Type}
    (corr : List (Option α) → List (Option α) → ℚ) (all : List (Column α))
    (hnd : (all.map Column.name).Nodup) :
    corrOuter corr all all [] = canonicalPairs corr all := by
  have h := corrOuter_eq_canonical corr all hnd all [] [] rfl (by simp)
  simpa using h

theorem mem_canonicalPairs {α : Type}
    (corr : List (Option α) → List (Option α) → ℚ)
    (hsym : ∀ x y, corr x y = corr y x) :
    ∀ (cols : List (Column α)), (cols.map Column.name).Nodup →
      ∀ (p : String × String) (v : ℚ),
        (p, v) ∈ canonicalPairs corr cols ↔ ∃ a ∈ cols, ∃ b ∈ cols,
          a.name ≠ b.name ∧ p = sortPair a.name b.name ∧
          v = |corr a.values b.values| := by
  intro cols
  induction cols with
  | nil =>
    intro hnd p v
    simp [canonicalPairs]
  | cons c rest ih =>
    intro hnd p v
    have hnd2 := hnd
    rw [List.map_cons] at hnd2
    obtain ⟨hcn, hndr⟩ := List.nodup_cons.mp hnd2
    rw [canonicalPairs, List.mem_append]
    constructor
    · rintro (hp | hp)
      · obtain ⟨y, hy, hpy⟩ := List.mem_map.mp hp
        have hpy2 : (sortPair c.name y.name, |corr c.values y.values|) =
            (p, v) := hpy
        have h1 : p = sortPair c.name y.name := (congrArg Prod.fst hpy2).symm
        have h2 : v = |corr c.values y.values| := (congrArg Prod.snd hpy2).symm
        have hne : c.name ≠ y.name := by
          intro he
          exact hcn (by rw [he]; exact List.mem_map_of_mem Column.name hy)
        exact ⟨c, by simp, y, by simp [hy], hne, h1, h2⟩
      · obtain ⟨a, ha, b, hb, hne, h1, h2⟩ := (ih hndr p v).mp hp
        exact ⟨a, by simp [ha], b, by simp [hb], hne, h1, h2⟩
    · rintro ⟨a, ha, b, hb, hne, h1, h2⟩
      rcases List.mem_cons.mp ha with rfl | har
      · rcases List.mem_cons.mp hb with rfl | hbr
        · exact absurd rfl hne
        · left
          apply List.mem_map.mpr
          exact ⟨b, hbr, by rw [← h1, ← h2]⟩
      · rcases List.mem_cons.mp hb with rfl | hbr
        · left
          apply List.mem_map.mpr
          refine ⟨a, har, ?_⟩
          have h1s : p = sortPair b.name a.name := by
            rw [h1, sortPair_comm]
          have h2s : v = |corr b.values a.values| := by
            rw [h2, hsym]
          rw [← h1s, ← h2s]
        · right
          exact (ih hndr p v).mpr ⟨a, har, b, hbr, hne, h1, h2⟩

theorem canonicalPairs_key_mem {α : Type}
    (corr : List (Option α) → List (Option α) → ℚ) :
    ∀ (cols : List (Column α)) (p : String × String),
      p ∈ (canonicalPairs corr cols).map Prod.fst →
      ∃ a ∈ cols, ∃ b ∈ cols, p = sortPair a.name b.name := by
  intro cols
  induction cols with
  | nil => intro p hp; simp [canonicalPairs] at hp
  | cons c rest ih =>
    intro p hp
    rw [canonicalPairs, List.map_append, List.mem_append] at hp
    rcases hp with hp | hp
    · rw [List.map_map] at hp
      obtain ⟨y, hy, hpy⟩ := List.mem_map.mp hp
      exact ⟨c, by simp, y, by simp [hy], by rw [← hpy]; rfl⟩
    · obtain ⟨a, ha, b, hb, h1⟩ := ih p hp
      exact ⟨a, by simp [ha], b, by simp [hb], h1⟩

theorem canonicalPairs_keys_nodup {α : Type}
    (corr : List (Option α) → List (Option α) → ℚ) :
    ∀ (cols : List (Column α)), (cols.map Column.name).Nodup →
      ((canonicalPairs corr cols).map Prod.fst).Nodup := by
  intro cols
  induction cols with
  | nil => intro hnd; simp [canonicalPairs]
  | cons c rest ih =>
    intro hnd
    have hnd2 := hnd
    rw [List.map_cons] at hnd2
    obtain ⟨hcn, hndr⟩ := List.nodup_cons.mp hnd2
    have hinjr : ∀ x ∈ rest, ∀ y ∈ rest, x.name = y.name → x = y :=
      fun x hx y hy he => List.inj_on_of_nodup_map hndr hx hy he
    rw [canonicalPairs, List.map_append, List.nodup_append]
    refine ⟨?_, ih hndr, ?_⟩
    · rw [List.map_map]
      apply List.Nodup.map_on ?_ (List.Nodup.of_map Column.name hndr)
      intro x hx y hy he
      have he2 : sortPair c.name x.name = sortPair c.name y.name := he
      rcases sortPair_eq_iff _ _ _ _ he2 with ⟨_, h5⟩ | ⟨h4, h5⟩
      · exact hinjr x hx y hy h5
      · exfalso
        apply hcn
        rw [show c.name = x.name from h5.symm]
        exact List.mem_map_of_mem Column.name hx
    · intro p hp hp2
      rw [List.map_map] at hp
      obtain ⟨y, hy, hpy⟩ := List.mem_map.mp hp
      obtain ⟨a, ha, b, hb, hab⟩ := canonicalPairs_key_mem corr rest p hp2
      have he : sortPair c.name y.name = sortPair a.name b.name := by
        have hpy2 : sortPair c.name y.name = p := hpy
        rw [hpy2, hab]
      rcases sortPair_eq_iff _ _ _ _ he with ⟨h4, _⟩ | ⟨h4, _⟩
      · exact hcn (by rw [h4]; exact List.mem_map_of_mem Column.name ha)
      · exact hcn (by rw [h4]; exact List.mem_map_of_mem Column.name hb)

theorem selectColsE_ok_eq {α : Type} (df : DataFrame α) :
    ∀ ns : List String, (∀ n ∈ ns, n ∈ colNames df) →
      selectColsE df ns = Except.ok (selectByNames df ns) := by
  intro ns
  induction ns with
  | nil => intro h; rfl
  | cons n rest ih =>
    intro h
    have hex : ∃ c, df.find? (fun c2 => c2.name == n) = some c := by
      rw [← Option.isSome_iff_exists, List.find?_isSome]
      obtain ⟨c, hcdf, hcn⟩ := List.mem_map.mp (h n (by simp))
      exact ⟨c, hcdf, by simp [hcn]⟩
    obtain ⟨c, hfind⟩ := hex
    rw [selectColsE, hfind, ih (fun m hm => h m (by simp [hm])),
      show selectByNames df (n :: rest) = c :: selectByNames df rest from
        by rw [selectByNames, List.filterMap_cons, hfind]; rfl]
    rfl

theorem selectByNames_names {α : Type} (df : DataFrame α) :
    ∀ ns : List String, (∀ n ∈ ns, n ∈ colNames df) →
      colNames (selectByNames df ns) = ns := by
  intro ns
  induction ns with
  | nil => intro h; rfl
  | cons n rest ih =>
    intro h
    have hex : ∃ c, df.find? (fun c2 => c2.name == n) = some c := by
      rw [← Option.isSome_iff_exists, List.find?_isSome]
      obtain ⟨c, hcdf, hcn⟩ := List.mem_map.mp (h n (by simp))
      exact ⟨c, hcdf, by simp [hcn]⟩
    obtain ⟨c, hfind⟩ := hex
    have hcname : c.name = n := by simpa using List.find?_some hfind
    rw [show selectByNames df (n :: rest) = c :: selectByNames df rest from
      by rw [selectByNames, List.filterMap_cons, hfind]; rfl]
    rw [colNames, List.map_cons, hcname]
    have htail := ih (fun m hm => h m (by simp [hm]))
    rw [colNames] at htail
    rw [htail]

theorem mem_selectByNames {α : Type} (df : DataFrame α)
    (hnd : (colNames df).Nodup) (ns : List String) (c : Column α) :
    c ∈ selectByNames df ns ↔ c ∈ df ∧ c.name ∈ ns := by
  rw [selectByNames, List.mem_filterMap]
  constructor
  · rintro ⟨n, hn, hfind⟩
    have hcm := List.mem_of_find?_eq_some hfind
    have hname : c.name = n := by simpa using List.find?_some hfind
    exact ⟨hcm, by rw [hname]; exact hn⟩
  · rintro ⟨hc, hn⟩
    exact ⟨c.name, hn, find?_name_of_mem df c hnd hc⟩

/-- The columns actually compared by `find_highly_correlated_features`:
the selected sub-frame restricted to the `select_dtypes` include-list. -/
def dtypeKept {α : Type} (df : DataFrame α) (ns : List String) : List (Column α) :=
  (selectByNames df ns).filter
    (fun c => decide (c.dtype ∈ numeric_and_boolean_dtypes))

theorem mem_dtypeKept {α : Type} (df : DataFrame α)
    (hnd : (colNames df).Nodup) (ns : List String) (a : Column α) :
    a ∈ dtypeKept df ns ↔
      a ∈ df ∧ a.name ∈ ns ∧ a.dtype ∈ numeric_and_boolean_dtypes := by
  rw [dtypeKept, List.mem_filter, mem_selectByNames df hnd ns a]
  simp [and_assoc]

theorem dtypeKept_names_nodup {α : Type} (df : DataFrame α) (ns : List String)
    (hsub : ∀ n ∈ ns, n ∈ colNames df) (hnsnd : ns.Nodup) :
    ((dtypeKept df ns).map Column.name).Nodup := by
  have hsl : ((dtypeKept df ns).map Column.name).Sublist
      ((selectByNames df ns).map Column.name) :=
    (List.filter_sublist _).map Column.name
  have hn : (selectByNames df ns).map Column.name = ns := by
    have h := selectByNames_names df ns hsub
    rwa [colNames] at h
  rw [hn] at hsl
  exact hsl.nodup hnsnd

theorem checkedNames_nodup_sub {α : Type} (df : DataFrame α)
    (hnd : (colNames df).Nodup) (ftc fte : Option (List String))
    (hftc : ∀ l, ftc = some l → l.Nodup ∧ ∀ n ∈ l, n ∈ colNames df) :
    (checkedNames df ftc fte).Nodup ∧
      ∀ n ∈ checkedNames df ftc fte, n ∈ colNames df := by
  unfold checkedNames
  cases ftc with
  | none =>
    cases fte with
    | none => exact ⟨hnd, fun n hn => hn⟩
    | some ex =>
      constructor
      · exact hnd.filter _
      · intro n hn
        exact List.mem_of_mem_filter hn
  | some l =>
    obtain ⟨h1, h2⟩ := hftc l rfl
    cases fte with
    | none => exact ⟨h1, h2⟩
    | some ex =>
      constructor
      · exact h1.filter _
      · intro n hn
        exact h2 n (List.mem_of_mem_filter hn)

theorem mem_keptCols {α : Type} (df : DataFrame α)
    (ftc fte : Option (List String)) (a : Column α) :
    a ∈ keptCols df ftc fte ↔
      a ∈ df ∧ a.name ∈ checkedNames df ftc fte ∧
        a.dtype ∈ numeric_and_boolean_dtypes := by
  rw [keptCols, List.mem_filter]
  simp [and_assoc]

theorem corrMain {α : Type} (corr : List (Option α) → List (Option α) → ℚ)
    (hsym : ∀ x y, corr x y = corr y x) (df : DataFrame α) (t : ℚ)
    (ns : List String)
    (hsub : ∀ n ∈ ns, n ∈ colNames df) (hnsnd : ns.Nodup) :
    ∃ pairs,
      (do
        let sub ← selectColsE df ns
        let fm_to_check := sub.filter
          (fun c => decide (c.dtype ∈ numeric_and_boolean_dtypes))
        let highly_correlated_by_pairs :=
          corrOuter corr fm_to_check fm_to_check []
        Except.ok ((highly_correlated_by_pairs.filter
          (fun p => decide (p.2 ≥ t))).map Prod.fst) :
        Except PyError (List (String × String))) = Except.ok pairs ∧
      pairs.Nodup ∧
      (∀ q, q ∈ pairs ↔ ∃ a ∈ dtypeKept df ns, ∃ b ∈ dtypeKept df ns,
        a.name ≠ b.name ∧ q = sortPair a.name b.name ∧
        t ≤ |corr a.values b.values|) := by
  have hkn : ((dtypeKept df ns).map Column.name).Nodup :=
    dtypeKept_names_nodup df ns hsub hnsnd
  refine ⟨((canonicalPairs corr (dtypeKept df ns)).filter
    (fun p => decide (p.2 ≥ t))).map Prod.fst, ?_, ?_, ?_⟩
  · rw [selectColsE_ok_eq df ns hsub]
    show Except.ok (((corrOuter corr (dtypeKept df ns) (dtypeKept df ns)
        []).filter (fun p => decide (p.2 ≥ t))).map Prod.fst) = _
    rw [corrOuter_full_eq_canonical corr (dtypeKept df ns) hkn]
  · apply List.Sublist.nodup ?_ (canonicalPairs_keys_nodup corr (dtypeKept df ns) hkn)
    exact (List.filter_sublist _).map Prod.fst
  · intro q
    constructor
    · intro hq
      obtain ⟨pv, hpv, hq1⟩ := List.mem_map.mp hq
      obtain ⟨hpv1, hpv2⟩ := List.mem_filter.mp hpv
      obtain ⟨a, ha, b, hb, hne, h1, h2⟩ :=
        (mem_canonicalPairs corr hsym (dtypeKept df ns) hkn pv.1 pv.2).mp hpv1
      refine ⟨a, ha, b, hb, hne, by rw [← hq1, h1], ?_⟩
      have hvt : pv.2 ≥ t := of_decide_eq_true hpv2
      rw [h2] at hvt
      exact hvt
    · rintro ⟨a, ha, b, hb, hne, hq1, hvt⟩
      apply List.mem_map.mpr
      refine ⟨(sortPair a.name b.name, |corr a.values b.values|), ?_, hq1.symm⟩
      apply List.mem_filter.mpr
      refine ⟨(mem_canonicalPairs corr hsym (dtypeKept df ns) hkn _ _).mpr
        ⟨a, ha, b, hb, hne, rfl, rfl⟩, ?_⟩
      exact decide_eq_true hvt

/-- C8 (amended): with a threshold in `[0, 1]` and a symmetric correlation
primitive, `find_highly_correlated_features` considers exactly the columns
of `features_to_check` (default all) minus `features_to_exclude` whose
storage dtype lies in the source's include-list
`{int16, int32, int64, float16, float32, float64, bool}`, and returns,
each at most once, exactly the unordered (sorted) pairs of distinct such
columns whose absolute correlation is at least the threshold. -/
theorem C8_find_highly_correlated_amended {α : Type}
    (corr : List (Option α) → List (Option α) → ℚ)
    (hsym : ∀ x y, corr x y = corr y x)
    (df : DataFrame α) (t : ℚ) (ftc fte : Option (List String))
    (h0 : 0 ≤ t) (h1 : t ≤ 1)
    (hnd : (colNames df).Nodup)
    (hftc : ∀ l, ftc = some l → l.Nodup ∧ ∀ n ∈ l, n ∈ colNames df) :
    ∃ pairs, find_highly_correlated_features corr df t ftc fte =
        Except.ok pairs ∧
      pairs.Nodup ∧
      (∀ q, q ∈ pairs ↔ ∃ a ∈ keptCols df ftc fte, ∃ b ∈ keptCols df ftc fte,
        a.name ≠ b.name ∧ q = sortPair a.name b.name ∧
        t ≤ |corr a.values b.values|) := by
  have hguard : ¬(t < 0 ∨ t > 1) := by
    push_neg
    exact ⟨h0, h1⟩
  obtain ⟨hcnd, hcsub⟩ := checkedNames_nodup_sub df hnd ftc fte hftc
  obtain ⟨pairs, hmain, hpnd, hmem⟩ :=
    corrMain corr hsym df t (checkedNames df ftc fte) hcsub hcnd
  have hkc : ∀ a : Column α, a ∈ dtypeKept df (checkedNames df ftc fte) ↔
      a ∈ keptCols df ftc fte := by
    intro a
    rw [mem_dtypeKept df hnd _ a, mem_keptCols df ftc fte a]
  refine ⟨pairs, ?_, hpnd, ?_⟩
  · unfold find_highly_correlated_features
    rw [if_neg hguard]
    exact hmain
  · intro q
    rw [hmem q]
    constructor
    · rintro ⟨a, ha, b, hb, h3⟩
      exact ⟨a, (hkc a).mp ha, b, (hkc b).mp hb, h3⟩
    · rintro ⟨a, ha, b, hb, h3⟩
      exact ⟨a, (hkc a).mpr ha, b, (hkc b).mpr hb, h3⟩

/-- C8 counterexample: two perfectly correlated `int8` columns — a numeric
storage dtype — are silently dropped because the source's include-list
`['int16','int32','int64','float16','float32','float64','bool']` omits
`int8`, so no pair is returned even though the claim requires one. -/
theorem C8_find_highly_correlated_cex :
    find_highly_correlated_features (fun _ _ => (1 : ℚ))
        ([⟨"x", DType.int8, [some 0, some 1]⟩,
          ⟨"y", DType.int8, [some 0, some (1 : Int)]⟩] : DataFrame Int)
        (1 : ℚ) none none = Except.ok [] ∧
    DType.int8.isNumericOrBool = true ∧
    (1 : ℚ) ≤ |(1 : ℚ)| ∧
    (0 : ℚ) ≤ 1 ∧ (1 : ℚ) ≤ 1 := by
  refine ⟨by decide, rfl, by norm_num, by norm_num, by norm_num⟩

/-- C8 witness: two anti-correlated (`corr = -1`) `float64` columns at
threshold `1` — the absolute-value comparison flags the pair. -/
theorem C8_find_highly_correlated_amended_witness :
    ((∀ x y : List (Option Int),
        (fun _ _ => (-1 : ℚ)) x y = (fun _ _ => (-1 : ℚ)) y x) ∧
     (0 : ℚ) ≤ 1 ∧ (1 : ℚ) ≤ 1 ∧
     (colNames ([⟨"x", DType.float64, []⟩, ⟨"y", DType.float64, []⟩] :
        DataFrame Int)).Nodup ∧
     (∀ l : List String, (none : Option (List String)) = some l →
        l.Nodup ∧ ∀ n ∈ l,
          n ∈ colNames ([⟨"x", DType.float64, []⟩, ⟨"y", DType.float64, []⟩] :
            DataFrame Int))) ∧
    (∃ pairs, find_highly_correlated_features (fun _ _ => (-1 : ℚ))
        ([⟨"x", DType.float64, []⟩, ⟨"y", DType.float64, []⟩] : DataFrame Int)
        (1 : ℚ) none none = Except.ok pairs ∧
      pairs.Nodup ∧
      (∀ q, q ∈ pairs ↔
        ∃ a ∈ keptCols ([⟨"x", DType.float64, []⟩, ⟨"y", DType.float64, []⟩] :
            DataFrame Int) none none,
        ∃ b ∈ keptCols ([⟨"x", DType.float64, []⟩, ⟨"y", DType.float64, []⟩] :
            DataFrame Int) none none,
          a.name ≠ b.name ∧ q = sortPair a.name b.name ∧
          (1 : ℚ) ≤ |(fun _ _ => (-1 : ℚ)) a.values b.values|)) :=
  ⟨⟨fun _ _ => rfl, by norm_num, by norm_num, by decide,
    fun l hl => Option.noConfusion hl⟩,
   C8_find_highly_correlated_amended (fun _ _ => (-1 : ℚ)) (fun _ _ => rfl)
     ([⟨"x", DType.float64, []⟩, ⟨"y", DType.float64, []⟩] : DataFrame Int)
     (1 : ℚ) none none (by norm_num) (by norm_num) (by decide)
     (fun l hl => Option.noConfusion hl)⟩
